import Mathlib

/-!
Verification development for `ffmpeg_cmd_bot` (src/main.py, src/env_manager.py).

The bot's pure command assembler (`parse_ffmpeg_command`), the temp-file
cleanup routine (`delete_temp_files`), and the conversation-handler callbacks
(`document_sending_callback`, `command_processing_callback`, `stop_callback`)
are embedded shallowly below.  Python strings are Lean `String`s whose
operations are re-expressed over the underlying character list; Python
dictionary keys that may be absent are `Option` fields; a handler either
returns a conversation state or raises a Python exception (`PyRes`).
The filesystem is a finite map from paths to byte sizes, represented as an
association list.
-/

/-- The double-quote character removed by `part.replace('"', '')`. -/
def dquote : Char := '"'

/-- `TEMP_DOWNLOAD_PATH` from src/main.py line 36. -/
def TEMP_DOWNLOAD_PATH : String := "./temp_download_path/"

/-- Python `part.replace('"', '')`: removes every double-quote character. -/
def stripQuotes (s : String) : String := String.mk (s.data.filter (fun c => c != dquote))

/-- Boolean test that one list is an initial segment of another. -/
def leadsList {α : Type} [DecidableEq α] : List α → List α → Bool
  | [], _ => true
  | _ :: _, [] => false
  | a :: as, b :: bs => if a = b then leadsList as bs else false

/-- Python `s.startswith(p)`. -/
def pyStartsWith (s p : String) : Bool := leadsList p.data s.data

/-- Python `c in s` for a one-character needle. -/
def pyContains (s : String) (c : Char) : Bool := s.data.contains c

/-- Python list assignment `parts[-1] = v` on a list of strings. -/
def setLast (v : String) : List String → List String
  | [] => []
  | [_] => [v]
  | x :: xs => x :: setLast v xs

/-- The list `effective_command_parts` of src/main.py lines 66-76 just before
output-file inference: `['ffmpeg']`, extended with the quote-stripped
pre-input parts, then `'-i'` followed by each quote-stripped input file name,
then the quote-stripped post-input parts. -/
def effective_command_parts (pre_input_parts post_input_parts input_file_names : List String) : List String :=
  "ffmpeg" ::
    (pre_input_parts.map stripQuotes ++
     input_file_names.flatMap (fun f => ["-i", stripQuotes f]) ++
     post_input_parts.map stripQuotes)

/-- `parse_ffmpeg_command` from src/main.py lines 53-87.  After building
`effective_command_parts`, the code inspects the last element: if it is
truthy (non-empty), does not start with `'-'` and contains `'.'`, the output
file is `TEMP_DOWNLOAD_PATH + parts[-1]`, and `parts[-1]` is overwritten with
it; otherwise the output file is `None`. -/
def parse_ffmpeg_command (pre_input_parts post_input_parts input_file_names : List String) :
    List String × Option String :=
  let ecp := effective_command_parts pre_input_parts post_input_parts input_file_names
  let lastTok := ecp.getLastD ""
  if lastTok != "" && !(pyStartsWith lastTok "-") && pyContains lastTok '.' then
    (setLast (TEMP_DOWNLOAD_PATH ++ lastTok) ecp, Option.some (TEMP_DOWNLOAD_PATH ++ lastTok))
  else
    (ecp, Option.none)

/-- A Python value as it occurs in the bot's `user_data` dictionary. -/
inductive PyVal where
  | none
  | str (s : String)
  | list (xs : List PyVal)

/-- Python exceptions that the embedded code can raise. -/
inductive PyError where
  | typeError
  | keyError
  | indexError
deriving DecidableEq, Repr

/-- Either a normally produced value or a raised Python exception. -/
inductive PyRes (α : Type) where
  | ok (a : α)
  | raised (e : PyError)
deriving DecidableEq, Repr

/-- Python `list.append(v)`: mutates the list in place and returns `None`. -/
def pyListAppend (xs : List PyVal) (v : PyVal) : List PyVal × PyVal :=
  (xs ++ [v], PyVal.none)

/-- Python iteration (`for x in v`): a list yields its elements, a string its
characters; `None` is not iterable and raises `TypeError`. -/
def pyIter : PyVal → PyRes (List PyVal)
  | PyVal.list xs => PyRes.ok xs
  | PyVal.str s => PyRes.ok (s.data.map (fun c => PyVal.str (String.mk [c])))
  | PyVal.none => PyRes.raised PyError.typeError

/-- The filesystem: the existing paths with their byte sizes. -/
abbrev FS := List (String × Nat)

/-- `os.path.exists`. -/
def osPathExists (fs : FS) (p : String) : Bool := fs.any (fun e => e.1 == p)

/-- `os.path.getsize` (0 for a missing path; all uses are guarded by
`os.path.exists`). -/
def osPathGetsize (fs : FS) (p : String) : Nat :=
  (fs.find? (fun e => e.1 == p)).elim 0 Prod.snd

/-- `os.remove`. -/
def osRemove (fs : FS) (p : String) : FS := fs.filter (fun e => e.1 != p)

/-- `file.download_to_drive(path)`: the attachment's bytes are written at the
path (overwriting), with the attachment's declared size. -/
def downloadToDrive (fs : FS) (p : String) (size : Nat) : FS :=
  osRemove fs p ++ [(p, size)]

/-- The bot's per-conversation `user_data` dictionary.  One field per key used
by src/main.py; `Option.none` models an absent key. -/
structure UserData where
  mediagroup_file_names : Option (List String) := Option.none
  pre_input : Option (Option (List String)) := Option.none
  post_input : Option (List String) := Option.none
  command : Option (List String) := Option.none
  output_path : Option (Option String) := Option.none
deriving DecidableEq, Repr

/-- The list stored under `MEDIAGROUP_FILE_NAMES_KEY` (empty when absent). -/
def mediaOf (ud : UserData) : List String := ud.mediagroup_file_names.getD []

/-- The body of the deletion loop of src/main.py lines 105-107:
`if os.path.exists(input_file): os.remove(input_file)` for each element. -/
def deleteLoop (fs : FS) : List PyVal → PyRes FS
  | [] => PyRes.ok fs
  | PyVal.str f :: rest =>
      deleteLoop (if osPathExists fs f then osRemove fs f else fs) rest
  | _ :: _ => PyRes.raised PyError.typeError

/-- `delete_temp_files` from src/main.py lines 90-107.  It reads the two
lists with `.get(key, [])`, computes
`all_files_to_delete = media_group_file_names.append(output_path)` — Python
`list.append` returns `None` — and then runs `for input_file in
all_files_to_delete`, i.e. it iterates over the value `append` returned. -/
def delete_temp_files (ud : UserData) (fs : FS) : PyRes FS :=
  let media_group_file_names : List PyVal := (mediaOf ud).map PyVal.str
  let output_path : PyVal :=
    match ud.output_path with
    | Option.some (Option.some s) => PyVal.str s
    | Option.some Option.none => PyVal.none
    | Option.none => PyVal.list []
  let appended := pyListAppend media_group_file_names output_path
  match pyIter appended.2 with
  | PyRes.raised e => PyRes.raised e
  | PyRes.ok all_files_to_delete => deleteLoop fs all_files_to_delete

/-- The states of `ffmpeg_command_conv_handler` (src/main.py line 50), plus
`END`, the value of `ConversationHandler.END` that terminates the
conversation. -/
inductive ConvState where
  | DOCUMENT_SENDING
  | COMMAND_WAITING
  | PRE_INPUT_STATE
  | POST_INPUT_STATE
  | END
deriving DecidableEq, Repr

/-- Messages and documents a callback sends back to the chat. -/
inductive Reply where
  | text (msg : String)
  | document (name : String)
deriving DecidableEq, Repr

/-- The observable outcome of running one handler callback: the replies it
sent, the resulting `user_data`, the resulting filesystem, and either the
conversation state it returned or the exception that escaped it. -/
structure StepOut where
  replies : List Reply
  ud : UserData
  fs : FS
  result : PyRes ConvState
deriving DecidableEq, Repr

/-- python-telegram-bot dispatch of a state callback: a normally returned
value becomes the new conversation state; if the callback raises, the
exception is routed to the error handler and the conversation stays in its
previous state. -/
def applyHandler (st : ConvState) (out : StepOut) : ConvState × UserData × FS :=
  match out.result with
  | PyRes.ok st2 => (st2, out.ud, out.fs)
  | PyRes.raised _ => (st, out.ud, out.fs)

/-- `stop_callback` from src/main.py lines 315-325: delete the temp files,
wipe `user_data`, reply, and end the conversation.  The reply and the wipe
happen after `delete_temp_files`. -/
def stop_callback (ud : UserData) (fs : FS) : StepOut :=
  match delete_temp_files ud fs with
  | PyRes.raised e => StepOut.mk [] ud fs (PyRes.raised e)
  | PyRes.ok fs2 =>
      StepOut.mk [Reply.text "You have stopped the /init command!"] {} fs2
        (PyRes.ok ConvState.END)

/-- The output-relay step of `command_processing_callback`
(src/main.py lines 292-303): if the output file is truthy, exists and is
non-empty, it is either refused as oversized (`size/(1024*1024) > 50`, i.e.
more than 50 MiB) or sent and removed; otherwise a problem message is sent.
The float comparison `size / (1024*1024) > 50` is exact for the integer
sizes involved, so it is `50 * 1024 * 1024 < size`. -/
def relayOutput (output_file : Option String) (fs : FS) : List Reply × FS :=
  match output_file with
  | Option.some p =>
    if p != "" && osPathExists fs p && (osPathGetsize fs p != 0) then
      if 50 * 1024 * 1024 < osPathGetsize fs p then
        ([Reply.text "The output file is bigger than 50MB so it can\x27t be sent from a bot."], fs)
      else
        ([Reply.document p], osRemove fs p)
    else
      ([Reply.text "There is a problem with the output file, try to change files or command."], fs)
  | Option.none =>
      ([Reply.text "There is a problem with the output file, try to change files or command."], fs)

/-- `command_processing_callback` from src/main.py lines 271-312.  The ffmpeg
subprocess is not interpreted: `fs` is the filesystem state after the
subprocess finished, and the relay of captured stderr is the
`"ffmpeg_output.txt"` document reply.  `user_data[COMMAND_KEY]` and
`user_data[OUTPUT_PATH_KEY]` are bracket accesses, raising `KeyError` when
the key is absent.  After the relay step the code calls `delete_temp_files`
and only then wipes `user_data` and returns `ConversationHandler.END`. -/
def command_processing_callback (ud : UserData) (fs : FS) : StepOut :=
  match ud.command with
  | Option.none => StepOut.mk [] ud fs (PyRes.raised PyError.keyError)
  | Option.some _ =>
    match ud.output_path with
    | Option.none =>
        StepOut.mk [Reply.document "ffmpeg_output.txt"] ud fs (PyRes.raised PyError.keyError)
    | Option.some output_file =>
      let rf := relayOutput output_file fs
      match delete_temp_files ud rf.2 with
      | PyRes.raised e =>
          StepOut.mk (Reply.document "ffmpeg_output.txt" :: rf.1) ud rf.2 (PyRes.raised e)
      | PyRes.ok fs3 =>
          StepOut.mk (Reply.document "ffmpeg_output.txt" :: rf.1) {} fs3
            (PyRes.ok ConvState.END)

/-- A message attachment as inspected by `document_sending_callback`.  For a
photo message `message.effective_attachment` is a non-empty tuple of sizes
and the code takes its last element (`attachment[-1]`); that resolved last
element is modelled directly. -/
inductive Attachment where
  | document (file_name : String) (file_size : Nat)
  | video (file_unique_id : String) (mime_type : String) (file_size : Nat)
  | photo (file_unique_id : String) (file_size : Nat)
deriving DecidableEq, Repr

/-- The declared `file_size` of an attachment. -/
def Attachment.file_size : Attachment → Nat
  | Attachment.document _ s => s
  | Attachment.video _ _ s => s
  | Attachment.photo _ s => s

/-- The name appended to `TEMP_DOWNLOAD_PATH` in src/main.py lines 190-197:
a document keeps its `file_name`; a video uses
`file_unique_id + '.' + mime_type.split('/')[1]` (an `IndexError` when the
mime type has no `'/'`); anything else uses `file_unique_id + '.jpg'`. -/
def attachmentFileName : Attachment → PyRes String
  | Attachment.document file_name _ => PyRes.ok file_name
  | Attachment.video file_unique_id mime_type _ =>
    match (mime_type.splitOn "/").get? 1 with
    | Option.some ext => PyRes.ok (file_unique_id ++ "." ++ ext)
    | Option.none => PyRes.raised PyError.indexError
  | Attachment.photo file_unique_id _ => PyRes.ok (file_unique_id ++ ".jpg")

/-- `document_sending_callback` from src/main.py lines 173-212.  A zero
`file_size` is rejected before anything else (reply, stay in
`DOCUMENT_SENDING`).  Otherwise the scratch path is
`TEMP_DOWNLOAD_PATH + name`, appended to
`user_data[MEDIAGROUP_FILE_NAMES_KEY]` (a bracket access), the file is
downloaded there, and the callback returns `COMMAND_WAITING`.  Of the two
confirmation replies (media group or not) the single-file one is used. -/
def document_sending_callback (att : Attachment) (ud : UserData) (fs : FS) : StepOut :=
  if att.file_size = 0 then
    StepOut.mk [Reply.text "The size of the file can\x27t be 0"] ud fs
      (PyRes.ok ConvState.DOCUMENT_SENDING)
  else
    match attachmentFileName att with
    | PyRes.raised e => StepOut.mk [] ud fs (PyRes.raised e)
    | PyRes.ok nameTail =>
      let input_file_name := TEMP_DOWNLOAD_PATH ++ nameTail
      match ud.mediagroup_file_names with
      | Option.none => StepOut.mk [] ud fs (PyRes.raised PyError.keyError)
      | Option.some media =>
        let ud2 := { ud with mediagroup_file_names := Option.some (media ++ [input_file_name]) }
        let fs2 := downloadToDrive fs input_file_name att.file_size
        StepOut.mk [Reply.text "Send me other files or send the /pre or /post command"] ud2 fs2
          (PyRes.ok ConvState.COMMAND_WAITING)

/-- The non-terminal states in whose handler table `main` registers
`CommandHandler('stop', stop_callback)` (src/main.py lines 349-376; `stop`
also appears in the fallbacks). -/
def stop_handler_states : List ConvState :=
  [ConvState.DOCUMENT_SENDING, ConvState.COMMAND_WAITING,
   ConvState.PRE_INPUT_STATE, ConvState.POST_INPUT_STATE]

/-- Split a character list at a separator character, Python `str.split`. -/
def splitOnChar (c : Char) : List Char → List (List Char)
  | [] => [[]]
  | a :: as =>
    let r := splitOnChar c as
    if a = c then [] :: r
    else
      match r with
      | [] => [[a]]
      | h :: t => (a :: h) :: t

/-- POSIX-style resolution of a relative path into its component stack:
empty and `.` components are dropped, `..` pops the previous component. -/
def resolveComponents (p : String) : List (List Char) :=
  (splitOnChar '/' p.data).foldl
    (fun acc comp =>
      if comp = [] ∨ comp = ['.'] then acc
      else if comp = ['.', '.'] then acc.dropLast
      else acc ++ [comp]) []

/-- A path lies inside the scratch directory when its resolved components
extend the resolved components of `TEMP_DOWNLOAD_PATH`. -/
def insideScratch (p : String) : Bool :=
  leadsList (resolveComponents TEMP_DOWNLOAD_PATH) (resolveComponents p)

/-- A path carries the scratch directory as literal textual prefix. -/
def scratchPrefixed (p : String) : Bool :=
  leadsList TEMP_DOWNLOAD_PATH.data p.data

theorem leadsList_append {α : Type} [DecidableEq α] (l t : List α) : leadsList l (l ++ t) = true := by
  induction l with
  | nil => rfl
  | cons a as ih => simp [leadsList, ih]

theorem setLast_eq_dropLast_append (v : String) (l : List String) (h : l ≠ []) :
    setLast v l = l.dropLast ++ [v] := by
  induction l with
  | nil => exact absurd rfl h
  | cons x xs ih =>
    cases xs with
    | nil => rfl
    | cons y ys => simp [setLast, ih]

theorem getLastD_mem_of_ne_nil {α : Type} (l : List α) (d : α) (h : l ≠ []) :
    l.getLastD d ∈ l := by
  induction l generalizing d with
  | nil => exact absurd rfl h
  | cons x xs ih =>
    cases xs with
    | nil => simp [List.getLastD]
    | cons y ys =>
      have := ih x (by simp)
      simp only [List.getLastD] at this ⊢
      exact List.mem_cons_of_mem _ this

theorem getLastD_default_irrel {α : Type} (l : List α) (d d' : α) (h : l ≠ []) :
    l.getLastD d = l.getLastD d' := by
  induction l generalizing d d' with
  | nil => exact absurd rfl h
  | cons x xs ih =>
    cases xs with
    | nil => rfl
    | cons y ys => simp only [List.getLastD_cons]

theorem getLastD_append_of_ne_nil {α : Type} (l₁ l₂ : List α) (d : α) (h : l₂ ≠ []) :
    (l₁ ++ l₂).getLastD d = l₂.getLastD d := by
  induction l₁ with
  | nil => rfl
  | cons x xs ih =>
    have hne : xs ++ l₂ ≠ [] := by
      intro hc
      exact h (List.append_eq_nil.mp hc).2
    calc (x :: xs ++ l₂).getLastD d = (xs ++ l₂).getLastD x := by
          simp only [List.cons_append, List.getLastD_cons]
      _ = (xs ++ l₂).getLastD d := getLastD_default_irrel _ _ _ hne
      _ = l₂.getLastD d := ih

theorem mem_setLast {v x : String} {l : List String} (h : x ∈ setLast v l) :
    x = v ∨ x ∈ l := by
  induction l with
  | nil => simp [setLast] at h
  | cons a as ih =>
    cases as with
    | nil =>
      simp [setLast] at h
      exact Or.inl h
    | cons b bs =>
      rcases List.mem_cons.mp h with h1 | h2
      · exact Or.inr (h1 ▸ List.mem_cons_self a _)
      · rcases ih h2 with h3 | h4
        · exact Or.inl h3
        · exact Or.inr (List.mem_cons_of_mem a h4)

theorem dropLast_cons_of_ne_nil {α : Type} (a : α) (l : List α) (h : l ≠ []) :
    (a :: l).dropLast = a :: l.dropLast := by
  cases l with
  | nil => exact absurd rfl h
  | cons b bs => rfl

theorem dropLast_append_right {α : Type} (l₁ l₂ : List α) (h : l₂ ≠ []) :
    (l₁ ++ l₂).dropLast = l₁ ++ l₂.dropLast := by
  induction l₁ with
  | nil => rfl
  | cons x xs ih =>
    have hne : xs ++ l₂ ≠ [] := by
      intro hc
      exact h (List.append_eq_nil.mp hc).2
    calc (x :: (xs ++ l₂)).dropLast = x :: (xs ++ l₂).dropLast :=
          dropLast_cons_of_ne_nil _ _ hne
      _ = x :: (xs ++ l₂.dropLast) := by rw [ih]

theorem eq_dropLast_append_getLastD {α : Type} (l : List α) (d : α) (h : l ≠ []) :
    l = l.dropLast ++ [l.getLastD d] := by
  induction l generalizing d with
  | nil => exact absurd rfl h
  | cons x xs ih =>
    cases xs with
    | nil => rfl
    | cons y ys =>
      have h2 : (y :: ys : List α) ≠ [] := by simp
      calc (x :: y :: ys : List α)
          = x :: ((y :: ys).dropLast ++ [(y :: ys).getLastD x]) := by
            rw [← ih x h2]
        _ = (x :: y :: ys).dropLast ++ [(x :: y :: ys).getLastD d] := by
            rw [dropLast_cons_of_ne_nil _ _ h2]
            simp only [List.getLastD_cons, List.cons_append]

/-- The cleanup routine unconditionally raises `TypeError`: `list.append`
returns `None` and the deletion loop then iterates over `None`. -/
theorem delete_raises (ud : UserData) (fs : FS) :
    delete_temp_files ud fs = PyRes.raised PyError.typeError := rfl

theorem stripQuotes_no_dquote (s : String) : dquote ∉ (stripQuotes s).data := by
  intro h
  have := (List.mem_filter.mp h).2
  simp at this

theorem effective_command_parts_ne_nil (pre post ins : List String) :
    effective_command_parts pre post ins ≠ [] := by
  simp [effective_command_parts]

theorem mem_effective_command_parts_no_dquote (pre post ins : List String) (s : String)
    (h : s ∈ effective_command_parts pre post ins) : dquote ∉ s.data := by
  rcases List.mem_cons.mp h with rfl | h2
  · decide
  rcases List.mem_append.mp h2 with h3 | h4
  · rcases List.mem_append.mp h3 with h5 | h6
    · obtain ⟨a, _, rfl⟩ := List.mem_map.mp h5
      exact stripQuotes_no_dquote a
    · obtain ⟨a, _, hmem⟩ := List.mem_flatMap.mp h6
      simp only [List.mem_cons, List.mem_singleton] at hmem
      rcases hmem with rfl | hmem2
      · decide
      · rcases hmem2 with rfl | hfalse
        · exact stripQuotes_no_dquote a
        · simp at hfalse
  · obtain ⟨a, _, rfl⟩ := List.mem_map.mp h4
    exact stripQuotes_no_dquote a

theorem flatMap_strip_count (ins : List String) :
    (ins.flatMap (fun f => ["-i", stripQuotes f])).count "-i"
      = ins.length + (ins.map stripQuotes).count "-i" := by
  induction ins with
  | nil => rfl
  | cons x xs ih =>
    simp only [List.flatMap_cons, List.map_cons, List.count_append, List.count_cons,
      List.length_cons, ih, List.count_nil, beq_self_eq_true, if_true]
    split <;> omega

theorem flatMap_strip_ne_nil (x : String) (t : List String) :
    (x :: t).flatMap (fun f => ["-i", stripQuotes f]) ≠ [] := by
  simp [List.flatMap_cons]

theorem flatMap_strip_getLastD (ins : List String) (h : ins ≠ []) (d : String) :
    (ins.flatMap (fun f => ["-i", stripQuotes f])).getLastD d
      = stripQuotes (ins.getLastD "") := by
  induction ins generalizing d with
  | nil => exact absurd rfl h
  | cons x xs ih =>
    cases xs with
    | nil => rfl
    | cons y ys =>
      have hne : (y :: ys : List String) ≠ [] := by simp
      calc ((x :: y :: ys).flatMap (fun f => ["-i", stripQuotes f])).getLastD d
          = (["-i", stripQuotes x] ++ (y :: ys).flatMap (fun f => ["-i", stripQuotes f])).getLastD d := by
            simp only [List.flatMap_cons]
        _ = ((y :: ys).flatMap (fun f => ["-i", stripQuotes f])).getLastD d :=
            getLastD_append_of_ne_nil _ _ _ (flatMap_strip_ne_nil y ys)
        _ = stripQuotes ((y :: ys).getLastD "") := ih hne d
        _ = stripQuotes ((x :: y :: ys).getLastD "") := by
            simp only [List.getLastD_cons]

theorem scratchPrefixed_concat (t : String) :
    scratchPrefixed (TEMP_DOWNLOAD_PATH ++ t) = true := by
  unfold scratchPrefixed
  rw [String.data_append]
  exact leadsList_append _ _

theorem temp_concat_ne_marker (t : String) : TEMP_DOWNLOAD_PATH ++ t ≠ "-i" := by
  intro h
  have hlen := congrArg String.length h
  rw [String.length_append] at hlen
  have h1 : TEMP_DOWNLOAD_PATH.length = 21 := by decide
  have h2 : ("-i" : String).length = 2 := by decide
  omega

theorem parse_argv_cases (pre post ins : List String) :
    (parse_ffmpeg_command pre post ins).1 = effective_command_parts pre post ins ∨
    (parse_ffmpeg_command pre post ins).1
      = setLast (TEMP_DOWNLOAD_PATH ++ (effective_command_parts pre post ins).getLastD "")
          (effective_command_parts pre post ins) := by
  simp only [parse_ffmpeg_command]
  split
  · exact Or.inr rfl
  · exact Or.inl rfl

theorem parse_output_some (pre post ins : List String) (op : String)
    (h : (parse_ffmpeg_command pre post ins).2 = Option.some op) :
    op = TEMP_DOWNLOAD_PATH ++ (effective_command_parts pre post ins).getLastD "" := by
  simp only [parse_ffmpeg_command] at h
  split at h
  · exact (Option.some.inj h).symm
  · exact absurd h (by simp)

/-- C1.  The claim — after every terminal transition no `inputFiles` path or
`outputPath` remains on disk, and cleanup completes on every exit path — is
refuted by the code: `delete_temp_files` raises `TypeError` before deleting
anything, so the stop transition leaves the conversation state, `user_data`
and the whole filesystem untouched, and `command_processing_callback` always
raises instead of reaching `ConversationHandler.END`. -/
theorem no_terminal_transition_completes_cleanup :
    ∀ (st : ConvState) (ud : UserData) (fs : FS),
      applyHandler st (stop_callback ud fs) = (st, ud, fs) ∧
      ∃ e, (command_processing_callback ud fs).result = PyRes.raised e := by
  intro st ud fs
  refine ⟨rfl, ?_⟩
  obtain ⟨m, pi, po, c, op⟩ := ud
  cases c <;> cases op <;> exact ⟨_, rfl⟩

/-- C2.  The claim — cleanup is best-effort and total, errors are logged and
never propagated — is refuted by the code: for every `user_data` and every
filesystem, `delete_temp_files` propagates a `TypeError` to its caller
(`list.append` returns `None` and the loop iterates over it), deleting
nothing. -/
theorem delete_temp_files_always_raises :
    ∀ (ud : UserData) (fs : FS),
      delete_temp_files ud fs = PyRes.raised PyError.typeError :=
  fun _ _ => rfl

/-- C3.  `/stop` is indeed registered in every non-terminal state, but the
claim that it transitions to TERMINAL with cleanup is refuted: the callback
always raises `TypeError` inside `delete_temp_files`, sending no reply,
wiping nothing, deleting nothing, and never returning
`ConversationHandler.END`. -/
theorem stop_registered_everywhere_but_callback_raises :
    (∀ st : ConvState, st = ConvState.END ∨ st ∈ stop_handler_states) ∧
    ∀ (ud : UserData) (fs : FS),
      stop_callback ud fs = StepOut.mk [] ud fs (PyRes.raised PyError.typeError) :=
  ⟨fun st => by cases st <;> simp [stop_handler_states], fun _ _ => rfl⟩

/-- C4.  Evaluation at the failing input: output file of 51 MiB on disk.
The size-limit message is sent, but — contrary to the claim — the output
file is not deleted (`os.remove` is only in the under-threshold branch and
`delete_temp_files` raises before deleting anything) and the session never
reaches TERMINAL: the callback ends in a raised `TypeError`. -/
theorem oversized_output_left_on_disk :
    command_processing_callback
        { mediagroup_file_names := Option.some ["./temp_download_path/in.mp4"],
          command := Option.some ["ffmpeg", "-i", "./temp_download_path/in.mp4",
            "./temp_download_path/out.mp4"],
          output_path := Option.some (Option.some "./temp_download_path/out.mp4") }
        [("./temp_download_path/in.mp4", 1000),
         ("./temp_download_path/out.mp4", 51 * 1024 * 1024)]
      = StepOut.mk
          [Reply.document "ffmpeg_output.txt",
           Reply.text "The output file is bigger than 50MB so it can\x27t be sent from a bot."]
          { mediagroup_file_names := Option.some ["./temp_download_path/in.mp4"],
            command := Option.some ["ffmpeg", "-i", "./temp_download_path/in.mp4",
              "./temp_download_path/out.mp4"],
            output_path := Option.some (Option.some "./temp_download_path/out.mp4") }
          [("./temp_download_path/in.mp4", 1000),
           ("./temp_download_path/out.mp4", 51 * 1024 * 1024)]
          (PyRes.raised PyError.typeError) := rfl

/-- C9.  A zero-size attachment is rejected: the callback replies with the
error message, leaves `user_data` (hence `inputFiles`) and the filesystem
unchanged, and returns the collecting state `DOCUMENT_SENDING`. -/
theorem zero_size_attachment_rejected :
    ∀ (att : Attachment) (ud : UserData) (fs : FS), att.file_size = 0 →
      document_sending_callback att ud fs
        = StepOut.mk [Reply.text "The size of the file can\x27t be 0"] ud fs
            (PyRes.ok ConvState.DOCUMENT_SENDING) := by
  intro att ud fs h
  unfold document_sending_callback
  rw [h]
  rfl

theorem zero_size_attachment_rejected_witness :
    (Attachment.photo "u" 0).file_size = 0 ∧
    document_sending_callback (Attachment.photo "u" 0) {} []
      = StepOut.mk [Reply.text "The size of the file can\x27t be 0"] {} []
          (PyRes.ok ConvState.DOCUMENT_SENDING) :=
  ⟨rfl, zero_size_attachment_rejected (Attachment.photo "u" 0) {} [] rfl⟩

/-- C6.  The double-quote character (the quote character the assembler
strips) never occurs in any element of the assembled argv, whatever the
fragments and file names contain. -/
theorem argv_has_no_double_quote :
    ∀ (pre post ins : List String) (s : String),
      s ∈ (parse_ffmpeg_command pre post ins).1 → dquote ∉ s.data := by
  intro pre post ins s hs
  rcases parse_argv_cases pre post ins with hc | hc
  · exact mem_effective_command_parts_no_dquote pre post ins s (hc ▸ hs)
  · rw [hc] at hs
    rcases mem_setLast hs with rfl | hmem
    · intro hd
      rw [String.data_append] at hd
      rcases List.mem_append.mp hd with h1 | h2
      · exact absurd h1 (by decide)
      · have hlt : (effective_command_parts pre post ins).getLastD ""
            ∈ effective_command_parts pre post ins :=
          getLastD_mem_of_ne_nil _ _ (effective_command_parts_ne_nil pre post ins)
        exact mem_effective_command_parts_no_dquote pre post ins _ hlt h2
    · exact mem_effective_command_parts_no_dquote pre post ins s hmem

theorem argv_has_no_double_quote_witness :
    ("-vf" ∈ (parse_ffmpeg_command ["-\"vf\""] [] []).1) ∧ dquote ∉ "-vf".data :=
  ⟨by decide, argv_has_no_double_quote ["-\"vf\""] [] [] "-vf" (by decide)⟩

/-- C5 counterexample.  A document whose name contains parent-directory
sequences is not rejected: the collecting callback stores
`./temp_download_path/../../secrets/evil.mp4` in `inputFiles`, a path whose
resolution escapes the scratch directory. -/
theorem traversal_name_accepted_escapes_scratch :
    (document_sending_callback (Attachment.document "../../secrets/evil.mp4" 7)
        { mediagroup_file_names := Option.some [] } []).ud.mediagroup_file_names
      = Option.some ["./temp_download_path/../../secrets/evil.mp4"] ∧
    insideScratch "./temp_download_path/../../secrets/evil.mp4" = false :=
  ⟨rfl, by decide⟩

/-- C5 (amended).  Every path the collecting callback stores in `inputFiles`
and every `outputPath` the assembler computes is the scratch-directory
prefix concatenated with the attachment-derived name or final command
token.  No rejection of path separators or `..` sequences is performed, so
the textual prefix is all that is guaranteed; a traversal name makes the
path resolve outside the scratch root. -/
theorem stored_paths_have_scratch_prefix :
    (∀ (att : Attachment) (ud : UserData) (fs : FS) (p : String),
        p ∈ mediaOf (document_sending_callback att ud fs).ud →
        p ∈ mediaOf ud ∨ scratchPrefixed p = true) ∧
    (∀ (pre post ins : List String) (op : String),
        (parse_ffmpeg_command pre post ins).2 = Option.some op →
        scratchPrefixed op = true) := by
  constructor
  · intro att ud fs p hp
    unfold document_sending_callback at hp
    split at hp
    · exact Or.inl hp
    · split at hp
      · exact Or.inl hp
      · split at hp
        · exact Or.inl hp
        · rename_i media hm
          simp only [mediaOf, Option.getD_some] at hp
          rcases List.mem_append.mp hp with h1 | h2
          · left
            rw [mediaOf, hm]
            exact h1
          · right
            rcases List.mem_singleton.mp h2 with rfl
            exact scratchPrefixed_concat _
  · intro pre post ins op h
    rw [parse_output_some pre post ins op h]
    exact scratchPrefixed_concat _

theorem stored_paths_have_scratch_prefix_witness :
    ("./temp_download_path/a.jpg"
        ∈ mediaOf (document_sending_callback (Attachment.document "a.jpg" 5)
            { mediagroup_file_names := Option.some [] } []).ud) ∧
    ("./temp_download_path/a.jpg" ∈ mediaOf { mediagroup_file_names := Option.some [] } ∨
      scratchPrefixed "./temp_download_path/a.jpg" = true) :=
  ⟨by decide,
   stored_paths_have_scratch_prefix.1 (Attachment.document "a.jpg" 5)
     { mediagroup_file_names := Option.some [] } [] "./temp_download_path/a.jpg" (by decide)⟩


theorem parse_fst_eq (pre post ins : List String) :
    (parse_ffmpeg_command pre post ins).1 =
      if ((effective_command_parts pre post ins).getLastD "") != ""
           && !(pyStartsWith ((effective_command_parts pre post ins).getLastD "") "-")
           && pyContains ((effective_command_parts pre post ins).getLastD "") '.' then
        setLast (TEMP_DOWNLOAD_PATH ++ (effective_command_parts pre post ins).getLastD "")
          (effective_command_parts pre post ins)
      else effective_command_parts pre post ins := by
  simp only [parse_ffmpeg_command]
  split <;> rename_i h <;> simp [h]

theorem parse_snd_eq (pre post ins : List String) :
    (parse_ffmpeg_command pre post ins).2 =
      if ((effective_command_parts pre post ins).getLastD "") != ""
           && !(pyStartsWith ((effective_command_parts pre post ins).getLastD "") "-")
           && pyContains ((effective_command_parts pre post ins).getLastD "") '.' then
        Option.some (TEMP_DOWNLOAD_PATH ++ (effective_command_parts pre post ins).getLastD "")
      else Option.none := by
  simp only [parse_ffmpeg_command]
  split <;> rename_i h <;> simp [h]

/-- C7 (amended).  For non-empty fragments and inputs, argv is the program
name followed by the quote-stripped pre-fragments, then one assembler-made
`-i` marker immediately before each quote-stripped input path in upload
order, then the (possibly output-rewritten) post-fragments; the total number
of `-i` tokens is the number of inputs plus the number of fragment or input
tokens that themselves equal `-i` after quote stripping. -/
theorem argv_shape_and_marker_count :
    ∀ (pre post ins : List String), pre ≠ [] → post ≠ [] → ins ≠ [] →
      ∃ post2 : List String,
        post2.length = post.length ∧
        (parse_ffmpeg_command pre post ins).1
          = "ffmpeg" :: (pre.map stripQuotes
              ++ ins.flatMap (fun f => ["-i", stripQuotes f]) ++ post2) ∧
        (parse_ffmpeg_command pre post ins).1.count "-i"
          = ins.length + ((pre.map stripQuotes).count "-i"
              + (ins.map stripQuotes).count "-i" + (post.map stripQuotes).count "-i") := by
  intro pre post ins hpre hpost hins
  have hff : (("ffmpeg" : String) == "-i") = false := by decide
  have hpost' : post.map stripQuotes ≠ [] := by
    simpa using hpost
  have hlast : (effective_command_parts pre post ins).getLastD ""
      = (post.map stripQuotes).getLastD "" := by
    show ("ffmpeg" :: (pre.map stripQuotes ++ ins.flatMap (fun f => ["-i", stripQuotes f])
        ++ post.map stripQuotes)).getLastD "" = _
    rw [List.getLastD_cons]
    rw [getLastD_append_of_ne_nil _ _ _ hpost']
    exact getLastD_default_irrel _ _ _ hpost'
  rw [parse_fst_eq]
  by_cases hg : (((effective_command_parts pre post ins).getLastD "") != ""
      && !(pyStartsWith ((effective_command_parts pre post ins).getLastD "") "-")
      && pyContains ((effective_command_parts pre post ins).getLastD "") '.') = true
  · rw [if_pos hg]
    have hg' := hg
    simp only [Bool.and_eq_true, bne_iff_ne, Bool.not_eq_true'] at hg'
    obtain ⟨⟨hne0, hsw⟩, hct⟩ := hg'
    have hlne : (effective_command_parts pre post ins).getLastD "" ≠ "-i" := by
      intro h
      rw [h] at hsw
      exact absurd hsw (by decide)
    have hecpne := effective_command_parts_ne_nil pre post ins
    rw [setLast_eq_dropLast_append _ _ hecpne]
    have hdl : (effective_command_parts pre post ins).dropLast
        = "ffmpeg" :: (pre.map stripQuotes ++ ins.flatMap (fun f => ["-i", stripQuotes f])
            ++ (post.map stripQuotes).dropLast) := by
      show ("ffmpeg" :: (pre.map stripQuotes ++ ins.flatMap (fun f => ["-i", stripQuotes f])
          ++ post.map stripQuotes)).dropLast = _
      rw [dropLast_cons_of_ne_nil]
      · rw [dropLast_append_right _ _ hpost']
      · intro hc
        exact hpost' (List.append_eq_nil.mp hc).2
    refine ⟨(post.map stripQuotes).dropLast
        ++ [TEMP_DOWNLOAD_PATH ++ (effective_command_parts pre post ins).getLastD ""],
      ?_, ?_, ?_⟩
    · have hlp := List.length_pos.mpr hpost'
      simp only [List.length_append, List.length_dropLast, List.length_cons,
        List.length_nil, List.length_map] at hlp ⊢
      omega
    · rw [hdl]
      simp [List.append_assoc]
    · rw [hdl]
      have h1 : ((TEMP_DOWNLOAD_PATH
          ++ (effective_command_parts pre post ins).getLastD "") == "-i") = false :=
        beq_eq_false_iff_ne.mpr (temp_concat_ne_marker _)
      have h2 : (((post.map stripQuotes).getLastD "") == "-i") = false :=
        beq_eq_false_iff_ne.mpr (hlast ▸ hlne)
      have hdecomp : post.map stripQuotes
          = (post.map stripQuotes).dropLast ++ [(post.map stripQuotes).getLastD ""] :=
        eq_dropLast_append_getLastD _ _ hpost'
      conv_rhs => rw [hdecomp]
      simp only [List.count_append, List.count_cons, List.count_nil, flatMap_strip_count,
        h1, h2, hff, Bool.false_eq_true, if_false]
      omega
  · rw [if_neg hg]
    refine ⟨post.map stripQuotes, by simp, rfl, ?_⟩
    show ("ffmpeg" :: (pre.map stripQuotes ++ ins.flatMap (fun f => ["-i", stripQuotes f])
        ++ post.map stripQuotes)).count "-i" = _
    simp only [List.count_cons, List.count_append, List.count_nil, flatMap_strip_count,
      hff, Bool.false_eq_true, if_false]
    omega

/-- C8.  If the final token of the assembled command is empty, starts with
the option prefix, or has no extension separator, `outputPath` is `None`;
otherwise the final token is rewritten to the scratch-prefixed path and
returned as `outputPath`. -/
theorem output_path_inference :
    ∀ (pre post ins : List String),
      (((effective_command_parts pre post ins).getLastD "" = "" ∨
        pyStartsWith ((effective_command_parts pre post ins).getLastD "") "-" = true ∨
        pyContains ((effective_command_parts pre post ins).getLastD "") '.' = false) →
          (parse_ffmpeg_command pre post ins).2 = Option.none) ∧
      (¬ ((effective_command_parts pre post ins).getLastD "" = "" ∨
          pyStartsWith ((effective_command_parts pre post ins).getLastD "") "-" = true ∨
          pyContains ((effective_command_parts pre post ins).getLastD "") '.' = false) →
        (parse_ffmpeg_command pre post ins).2
            = Option.some (TEMP_DOWNLOAD_PATH
                ++ (effective_command_parts pre post ins).getLastD "") ∧
        (parse_ffmpeg_command pre post ins).1
            = (effective_command_parts pre post ins).dropLast
                ++ [TEMP_DOWNLOAD_PATH ++ (effective_command_parts pre post ins).getLastD ""]) := by
  intro pre post ins
  constructor
  · intro hd
    rw [parse_snd_eq]
    have hcond : (((effective_command_parts pre post ins).getLastD "") != ""
        && !(pyStartsWith ((effective_command_parts pre post ins).getLastD "") "-")
        && pyContains ((effective_command_parts pre post ins).getLastD "") '.') = false := by
      rcases hd with h | h | h
      · rw [h]
        simp only [bne_self_eq_false, Bool.false_and]
      · rw [h]
        simp only [Bool.not_true, Bool.and_false, Bool.false_and]
      · rw [h]
        simp only [Bool.and_false]
    rw [if_neg (fun hc => Bool.false_ne_true (hcond ▸ hc))]
  · intro hd
    push_neg at hd
    obtain ⟨h0, hsw, hct⟩ := hd
    have hswf : pyStartsWith ((effective_command_parts pre post ins).getLastD "") "-" = false := by
      cases hb : pyStartsWith ((effective_command_parts pre post ins).getLastD "") "-"
      · rfl
      · exact absurd hb hsw
    have hctt : pyContains ((effective_command_parts pre post ins).getLastD "") '.' = true := by
      cases hb : pyContains ((effective_command_parts pre post ins).getLastD "") '.'
      · exact absurd hb hct
      · rfl
    have hcond : (((effective_command_parts pre post ins).getLastD "") != ""
        && !(pyStartsWith ((effective_command_parts pre post ins).getLastD "") "-")
        && pyContains ((effective_command_parts pre post ins).getLastD "") '.') = true := by
      rw [hswf, hctt]
      simp only [Bool.not_false, Bool.and_true]
      exact bne_iff_ne.mpr h0
    constructor
    · rw [parse_snd_eq, if_pos hcond]
    · rw [parse_fst_eq, if_pos hcond,
        setLast_eq_dropLast_append _ _ (effective_command_parts_ne_nil pre post ins)]

/-- C10.  With non-empty inputs and no post-fragments, the final argv token
is the quote-stripped last input path; whenever that token does not start
with `-` and contains `.`, the assembler returns it re-prefixed with the
scratch directory as `outputPath` (and writes it back as the final argv
element): the last uploaded input file itself is treated as the output. -/
theorem empty_post_last_input_becomes_output :
    ∀ (pre ins : List String), ins ≠ [] →
      (effective_command_parts pre [] ins).getLastD "" = stripQuotes (ins.getLastD "") ∧
      (pyStartsWith (stripQuotes (ins.getLastD "")) "-" = false ∧
       pyContains (stripQuotes (ins.getLastD "")) '.' = true →
        (parse_ffmpeg_command pre [] ins).2
            = Option.some (TEMP_DOWNLOAD_PATH ++ stripQuotes (ins.getLastD "")) ∧
        (parse_ffmpeg_command pre [] ins).1.getLastD ""
            = TEMP_DOWNLOAD_PATH ++ stripQuotes (ins.getLastD "")) := by
  intro pre ins hins
  have hflatne : ins.flatMap (fun f => ["-i", stripQuotes f]) ≠ [] := by
    cases ins with
    | nil => exact absurd rfl hins
    | cons x t => exact flatMap_strip_ne_nil x t
  have hlast : (effective_command_parts pre [] ins).getLastD ""
      = stripQuotes (ins.getLastD "") := by
    show ("ffmpeg" :: (pre.map stripQuotes ++ ins.flatMap (fun f => ["-i", stripQuotes f])
        ++ ([] : List String).map stripQuotes)).getLastD "" = _
    rw [List.getLastD_cons]
    simp only [List.map_nil, List.append_nil]
    rw [getLastD_append_of_ne_nil _ _ _ hflatne]
    rw [getLastD_default_irrel _ _ "" hflatne]
    exact flatMap_strip_getLastD ins hins ""
  refine ⟨hlast, ?_⟩
  rintro ⟨hsw, hct⟩
  have htne : stripQuotes (ins.getLastD "") ≠ "" := by
    intro h
    rw [h] at hct
    exact absurd hct (by decide)
  have hcond : (((effective_command_parts pre [] ins).getLastD "") != ""
      && !(pyStartsWith ((effective_command_parts pre [] ins).getLastD "") "-")
      && pyContains ((effective_command_parts pre [] ins).getLastD "") '.') = true := by
    rw [hlast, hsw, hct]
    simp only [Bool.not_false, Bool.and_true]
    exact bne_iff_ne.mpr htne
  constructor
  · rw [parse_snd_eq, if_pos hcond, hlast]
  · rw [parse_fst_eq, if_pos hcond, hlast,
      setLast_eq_dropLast_append _ _ (effective_command_parts_ne_nil pre [] ins)]
    rw [getLastD_append_of_ne_nil _ _ _
      (by simp : ([TEMP_DOWNLOAD_PATH ++ stripQuotes (ins.getLastD "")] : List String) ≠ [])]
    rfl

/-- C7 counterexample.  With `preFragments = ["-i"]`, `postFragments =
["out"]` and `inputFiles = ["a.mp4"]` — all non-empty — the assembled argv
is `["ffmpeg", "-i", "-i", "a.mp4", "out"]`: it contains two `-i` tokens for
a single input path, so argv does not contain exactly one input-marker per
input path. -/
theorem input_marker_count_exceeds_inputs :
    (parse_ffmpeg_command ["-i"] ["out"] ["a.mp4"]).1
        = ["ffmpeg", "-i", "-i", "a.mp4", "out"] ∧
    (parse_ffmpeg_command ["-i"] ["out"] ["a.mp4"]).1.count "-i" = 2 ∧
    List.length ["a.mp4"] = 1 := by
  refine ⟨by decide, by decide, by decide⟩

theorem argv_shape_and_marker_count_witness :
    (["-vf"] : List String) ≠ [] ∧ (["out.mp4"] : List String) ≠ [] ∧
    (["a.jpg"] : List String) ≠ [] ∧
    ∃ post2 : List String,
      post2.length = (["out.mp4"] : List String).length ∧
      (parse_ffmpeg_command ["-vf"] ["out.mp4"] ["a.jpg"]).1
        = "ffmpeg" :: ((["-vf"] : List String).map stripQuotes
            ++ (["a.jpg"] : List String).flatMap (fun f => ["-i", stripQuotes f]) ++ post2) ∧
      (parse_ffmpeg_command ["-vf"] ["out.mp4"] ["a.jpg"]).1.count "-i"
        = (["a.jpg"] : List String).length + (((["-vf"] : List String).map stripQuotes).count "-i"
            + ((["a.jpg"] : List String).map stripQuotes).count "-i"
            + ((["out.mp4"] : List String).map stripQuotes).count "-i") :=
  ⟨by decide, by decide, by decide,
   argv_shape_and_marker_count ["-vf"] ["out.mp4"] ["a.jpg"] (by decide) (by decide) (by decide)⟩

theorem output_path_inference_witness :
    ¬ ((effective_command_parts [] ["-vf", "scale=1280x720", "out.jpg"] ["a.jpg"]).getLastD "" = "" ∨
       pyStartsWith ((effective_command_parts [] ["-vf", "scale=1280x720", "out.jpg"] ["a.jpg"]).getLastD "") "-" = true ∨
       pyContains ((effective_command_parts [] ["-vf", "scale=1280x720", "out.jpg"] ["a.jpg"]).getLastD "") '.' = false) ∧
    ((parse_ffmpeg_command [] ["-vf", "scale=1280x720", "out.jpg"] ["a.jpg"]).2
        = Option.some (TEMP_DOWNLOAD_PATH
            ++ (effective_command_parts [] ["-vf", "scale=1280x720", "out.jpg"] ["a.jpg"]).getLastD "") ∧
     (parse_ffmpeg_command [] ["-vf", "scale=1280x720", "out.jpg"] ["a.jpg"]).1
        = (effective_command_parts [] ["-vf", "scale=1280x720", "out.jpg"] ["a.jpg"]).dropLast
            ++ [TEMP_DOWNLOAD_PATH
                ++ (effective_command_parts [] ["-vf", "scale=1280x720", "out.jpg"] ["a.jpg"]).getLastD ""]) :=
  ⟨by decide,
   (output_path_inference [] ["-vf", "scale=1280x720", "out.jpg"] ["a.jpg"]).2 (by decide)⟩

theorem empty_post_last_input_becomes_output_witness :
    (["a.jpg"] : List String) ≠ [] ∧
    (pyStartsWith (stripQuotes ((["a.jpg"] : List String).getLastD "")) "-" = false ∧
     pyContains (stripQuotes ((["a.jpg"] : List String).getLastD "")) '.' = true) ∧
    ((parse_ffmpeg_command [] [] ["a.jpg"]).2
        = Option.some (TEMP_DOWNLOAD_PATH ++ stripQuotes ((["a.jpg"] : List String).getLastD "")) ∧
     (parse_ffmpeg_command [] [] ["a.jpg"]).1.getLastD ""
        = TEMP_DOWNLOAD_PATH ++ stripQuotes ((["a.jpg"] : List String).getLastD "")) :=
  ⟨by decide, ⟨by decide, by decide⟩,
   (empty_post_last_input_becomes_output [] ["a.jpg"] (by decide)).2 ⟨by decide, by decide⟩⟩
